import Mathlib

/-!
Verification of the duplicate-resolution core of `immich_duplicates_en.py`.

The embedding models Python JSON-ish values (`PyVal`), asset records
(`Asset`), the descriptor extractor `get_asset_info`, the canonical
selector `select_best_asset` (lines 113-159 of the source), the metadata
transfer accumulators of `transfer_metadata_to_kept` (lines 220-295), and
the script's main loop and bulk-deletion section (lines 304-399) as a
trace of API calls.

Python `min`/`max` over mixed `None`/`int` sequences raise `TypeError`;
this is modelled by `Except String` results of `pyMin`/`pyMaxVal`.
-/

deriving instance DecidableEq for Except

/-- A Python value as found in the asset JSON dictionaries: `None`, a
string, or a number (modelled as an integer). -/
inductive PyVal where
  | none
  | str (s : String)
  | int (n : Int)
  deriving DecidableEq, Repr

/-- A tag record; `id` is `Option` because `tag.get('id')` may be absent,
and Python additionally treats the empty string as falsy. -/
structure Tag where
  id : Option String
  deriving DecidableEq, Repr

/-- An asset record as fetched from the server: id, original filename,
the `exifInfo` dictionary (ordered association list with unique keys) and
the tag list. -/
structure Asset where
  id : String
  originalFileName : String
  exifInfo : List (String × PyVal)
  tags : List Tag
  deriving DecidableEq, Repr

/-- Python `str.lower()` (ASCII case folding suffices for the filenames
and replies involved): computable model over the character list. -/
def pyLower (s : String) : String := ⟨s.data.map Char.toLower⟩

/-- Python `str.endswith(suffix)`. -/
def pyEndsWith (s suffix : String) : Bool := suffix.data.isSuffixOf s.data

/-- Python `str.strip()`: remove leading and trailing whitespace. -/
def pyStrip (s : String) : String :=
  ⟨((s.data.dropWhile Char.isWhitespace).reverse.dropWhile Char.isWhitespace).reverse⟩

/-- Decimal digit-string parser used by the model of `fromisoformat`. -/
def parseDigits (cs : List Char) : Option Nat :=
  if cs ≠ [] ∧ cs.all Char.isDigit then
    some (cs.foldl (fun n c => n * 10 + (c.toNat - 48)) 0)
  else Option.none

/-- Python `dict.get`: first binding of the key, `None` when absent. -/
def dictGet : List (String × PyVal) → String → Option PyVal
  | [], _ => Option.none
  | (k', v) :: rest, k => if k' = k then some v else dictGet rest k

/-- Source line 105: `datetime.fromisoformat(exif.get('dateTimeOriginal'))`.
`fromisoformat` is Python standard-library code, not part of this
repository; per the spec (§4.1) the only relevant behaviour is that a
parsable capture-timestamp string yields a comparable date and anything
else (absent value, `None`, a number, an unparsable string) raises and is
caught, yielding the sentinel.  Parsable strings are modelled as decimal
digit strings denoting a timestamp index. -/
def fromisoformat (v : Option PyVal) : Option Nat :=
  match v with
  | some (PyVal.str s) => parseDigits s.data
  | _ => Option.none

/-- Does a value count for the EXIF richness sum of source line 110:
`v is not None and (not isinstance(v, str) or v.strip() != "")`. -/
def pyValCounts : PyVal → Bool
  | PyVal.none => false
  | PyVal.str s => pyStrip s != ""
  | PyVal.int _ => true

/-- Source lines 102-111, `get_asset_info`: (date, is_heic, size, exif_count).
The date uses `WithTop Nat`; `⊤` models `datetime.max`, the "worst date if
empty" sentinel.  The size is the raw `exif.get('fileSizeInByte')` value
(`PyVal.none` when absent, exactly as Python's `dict.get` yields `None`). -/
def get_asset_info (asset : Asset) : (WithTop Nat) × Nat × PyVal × Nat :=
  let exif := asset.exifInfo
  let date : WithTop Nat :=
    match fromisoformat (dictGet exif "dateTimeOriginal") with
    | some n => (n : WithTop Nat)
    | Option.none => ⊤
  let is_heic : Nat := if pyEndsWith (pyLower asset.originalFileName) ".heic" then 1 else 0
  let size : PyVal := (dictGet exif "fileSizeInByte").getD PyVal.none
  let exif_count : Nat := exif.countP fun p => pyValCounts p.2
  (date, is_heic, size, exif_count)

/-- Projection: `get_asset_info(a)[0]`. -/
def dateKey (a : Asset) : WithTop Nat := (get_asset_info a).1

/-- Projection: `get_asset_info(a)[1]`. -/
def heicKey (a : Asset) : Nat := (get_asset_info a).2.1

/-- Projection: `get_asset_info(a)[2]`. -/
def sizeKey (a : Asset) : PyVal := (get_asset_info a).2.2.1

/-- Projection: `get_asset_info(a)[3]`. -/
def exifKey (a : Asset) : Nat := (get_asset_info a).2.2.2

/-- Python `min` over a sequence of datetimes (always mutually comparable);
raises `ValueError` on an empty sequence. -/
def pyMin (l : List (WithTop Nat)) : Except String (WithTop Nat) :=
  match l with
  | [] => Except.error "ValueError"
  | x :: xs => Except.ok (xs.foldl min x)

/-- Python `max` over a sequence of ints; raises `ValueError` on empty. -/
def pyMaxNat (l : List Nat) : Except String Nat :=
  match l with
  | [] => Except.error "ValueError"
  | x :: xs => Except.ok (xs.foldl max x)

/-- Python `item > maxval` on raw values: defined for int/int and
str/str, a `TypeError` otherwise (in particular whenever `None` is
involved, on either side). -/
def pyGTval : PyVal → PyVal → Except String Bool
  | PyVal.int a, PyVal.int b => Except.ok (decide (b < a))
  | PyVal.str a, PyVal.str b => Except.ok (decide (b < a))
  | _, _ => Except.error "TypeError"

/-- The running-maximum loop inside Python's `max`: compare each further
item with the current maximum, replacing it on `item > maxval`. -/
def pyMaxValAux (m : PyVal) : List PyVal → Except String PyVal
  | [] => Except.ok m
  | item :: rest =>
    match pyGTval item m with
    | Except.error e => Except.error e
    | Except.ok gt => pyMaxValAux (if gt then item else m) rest

/-- Python `max` over a sequence of raw values (`max(... sizes ...)` of
source line 139): keeps the first maximal element, raises `TypeError` as
soon as an incomparable pair is compared, `ValueError` on empty. -/
def pyMaxVal : List PyVal → Except String PyVal
  | [] => Except.error "ValueError"
  | x :: xs => pyMaxValAux x xs

/-- Source lines 148-159 of `select_best_asset`: "Step 4: More EXIF
fields" followed by the final `return remaining[0], reason`.  The control
flow from step 2 onward is transcribed in continuation style: each step
receives the current `remaining`, `length` and `reason` variables of the
imperative source.  (The final `length` update of line 156 is dead code
and has no observable effect.) -/
def select_step4 (remaining : List Asset) (length : Nat) (reason : String) :
    Except String (Asset × String) :=
  match pyMaxNat (remaining.map exifKey) with
  | Except.error e => Except.error e
  | Except.ok max_exif =>
    let remaining := remaining.filter fun a => decide (exifKey a = max_exif)
    match remaining with
    | [a] => Except.ok (a, "more exif data")
    | remaining =>
      let reason := if length ≠ remaining.length then "more exif data" else reason
      match remaining with
      | [] => Except.error "IndexError"
      | a :: _ => Except.ok (a, reason)

/-- Source lines 138-146 of `select_best_asset`: "Step 3: larger size". -/
def select_step3 (remaining : List Asset) (length : Nat) (reason : String) :
    Except String (Asset × String) :=
  match pyMaxVal (remaining.map sizeKey) with
  | Except.error e => Except.error e
  | Except.ok max_size =>
    let remaining := remaining.filter fun a => decide (sizeKey a = max_size)
    match remaining with
    | [a] => Except.ok (a, "larger size")
    | remaining =>
      let reason := if length ≠ remaining.length then "larger size" else reason
      let length := if length ≠ remaining.length then remaining.length else length
      select_step4 remaining length reason

/-- Source lines 128-136 of `select_best_asset`: "Step 2: Priority to
.heic". -/
def select_step2 (remaining : List Asset) (length : Nat) (reason : String) :
    Except String (Asset × String) :=
  match pyMaxNat (remaining.map heicKey) with
  | Except.error e => Except.error e
  | Except.ok heic =>
    let remaining := remaining.filter fun a => decide (heicKey a = heic)
    match remaining with
    | [a] => Except.ok (a, "heic extension")
    | remaining =>
      let reason := if length ≠ remaining.length then "heic extension" else reason
      let length := if length ≠ remaining.length then remaining.length else length
      select_step3 remaining length reason

/-- Source lines 113-159, `select_best_asset`: the four-stage cascade.
Each step computes the extremum of its key over the remaining candidates,
filters, returns immediately when a single candidate is left, and
otherwise records the step's reason exactly when the step narrowed the
candidate set (`if length != len(remaining)`); steps 2-4 are the
continuations `select_step2/3/4`. -/
def select_best_asset (assets : List Asset) : Except String (Asset × String) :=
  let remaining := assets
  let length := remaining.length
  let reason := "identical files with the criteria (date, heic, size, exif)"
  -- Step 1: Earliest date
  match pyMin (remaining.map dateKey) with
  | Except.error e => Except.error e
  | Except.ok min_date =>
    let remaining := remaining.filter fun a => decide (dateKey a = min_date)
    match remaining with
    | [a] => Except.ok (a, "older")
    | remaining =>
      let reason := if length ≠ remaining.length then "older" else reason
      let length := if length ≠ remaining.length then remaining.length else length
      select_step2 remaining length reason

/-- Concrete asset: oldest capture date, jpg, sized. -/
def exA : Asset :=
  { id := "a", originalFileName := "a.jpg",
    exifInfo := [("dateTimeOriginal", PyVal.str "5"), ("fileSizeInByte", PyVal.int 100)],
    tags := [] }

/-- Concrete asset: later capture date, jpg, sized. -/
def exB : Asset :=
  { id := "b", originalFileName := "b.jpg",
    exifInfo := [("dateTimeOriginal", PyVal.str "9"), ("fileSizeInByte", PyVal.int 100)],
    tags := [] }

/-- Spec-side cascade, fourth filter (maximum metadata-field count): one
step of the explicit fold carrying (candidates, reason) that §4.2 and §9
of the specification describe; the reason advances exactly when the
filter reduced the candidate set. -/
def cascadeStage4 (c3 : List Asset) (r3 : String) : Except String (Asset × String) :=
  match pyMaxNat (c3.map exifKey) with
  | Except.error e => Except.error e
  | Except.ok m4 =>
    let c4 := c3.filter fun a => decide (exifKey a = m4)
    let r4 := if c4.length < c3.length then "more exif data" else r3
    match c4 with
    | [] => Except.error "IndexError"
    | a :: _ => Except.ok (a, r4)

/-- Spec-side cascade, third filter (maximum size). -/
def cascadeStage3 (c2 : List Asset) (r2 : String) : Except String (Asset × String) :=
  match pyMaxVal (c2.map sizeKey) with
  | Except.error e => Except.error e
  | Except.ok m3 =>
    let c3 := c2.filter fun a => decide (sizeKey a = m3)
    cascadeStage4 c3 (if c3.length < c2.length then "larger size" else r2)

/-- Spec-side cascade, second filter (maximum format priority). -/
def cascadeStage2 (c1 : List Asset) (r1 : String) : Except String (Asset × String) :=
  match pyMaxNat (c1.map heicKey) with
  | Except.error e => Except.error e
  | Except.ok m2 =>
    let c2 := c1.filter fun a => decide (heicKey a = m2)
    cascadeStage3 c2 (if c2.length < c1.length then "heic extension" else r1)

/-- Spec-side selector, following §4.2 and §9 of the specification: the
strict cascade of four filters in the order minimum capture date, maximum
format priority, maximum size, maximum metadata-field count, written as
an explicit fold carrying (candidates, reason) in which each filter only
narrows the candidate set and the reason recorded is that of the last
filter that actually reduced it (the default all-tied reason otherwise);
the surviving candidate in first-input-order position is kept.
Comparison semantics (the extremum computations) are shared with the
source-side definitions; what this definition pins down is the filter
order, the narrowing, and the reason tracking, which claim C3 compares
against `select_best_asset`. -/
def selector_spec_cascade (assets : List Asset) : Except String (Asset × String) :=
  match pyMin (assets.map dateKey) with
  | Except.error e => Except.error e
  | Except.ok m1 =>
    let c1 := assets.filter fun a => decide (dateKey a = m1)
    cascadeStage2 c1 (if c1.length < assets.length then "older"
      else "identical files with the criteria (date, heic, size, exif)")

/-- Source lines 162-170, `_has_exif_value`: the asset has a non-`None`
EXIF value under the key, where a present-but-blank string counts as
absent. -/
def _has_exif_value (asset : Asset) (key : String) : Bool :=
  match dictGet asset.exifInfo key with
  | Option.none => false
  | some PyVal.none => false
  | some (PyVal.str s) => pyStrip s != ""
  | some (PyVal.int _) => true

/-- Truthy tag id: `t.get('id')` filtered by Python truthiness (absent id
and empty-string id are falsy). -/
def tagTruthyId (t : Tag) : Option String :=
  match t.id with
  | some s => if s = "" then Option.none else some s
  | Option.none => Option.none

/-- Source lines 173-176, `_get_kept_tags_ids`: the set of truthy tag ids
on the kept asset, modelled as a duplicate-free list built in first-seen
order. -/
def _get_kept_tags_ids (kept : Asset) : List String :=
  kept.tags.foldl (fun acc t =>
    match tagTruthyId t with
    | some tid => if tid ∈ acc then acc else acc ++ [tid]
    | Option.none => acc) []

/-- Source line 257: add a single tag id to the accumulating set when it
is truthy, not already on the kept asset, and not already queued. -/
def addTagId (original_kept_tags : List String) (acc : List String) (t : Tag) : List String :=
  match tagTruthyId t with
  | some tid => if tid ∈ original_kept_tags ∨ tid ∈ acc then acc else acc ++ [tid]
  | Option.none => acc

/-- Source lines 223-224 and 254-258: the set `tags_to_add` accumulated
over the discarded assets of a group, against the pre-operation snapshot
`original_kept_tags`.  Python's `set` is modelled as a duplicate-free
list in first-insertion order. -/
def tags_to_add (kept : Asset) (to_delete_assets : List Asset) : List String :=
  let original_kept_tags := _get_kept_tags_ids kept
  to_delete_assets.foldl (fun acc to_del => to_del.tags.foldl (addTagId original_kept_tags) acc) []

/-- The fixed transferable-field list of source line 261. -/
def transferKeys : List String :=
  ["latitude", "longitude", "description", "dateTimeOriginal", "rating"]

/-- Source lines 261-267: one iteration of the inner `for key in (...)`
loop of `transfer_metadata_to_kept`, acting on the accumulating
`exif_to_set` dictionary (modelled as an association list grown by
insertion). -/
def exifSetStep (kept to_del : Asset) (acc : List (String × PyVal)) (key : String) :
    List (String × PyVal) :=
  if (dictGet acc key).isSome then acc
  else if _has_exif_value to_del key && !(_has_exif_value kept key) then
    match dictGet to_del.exifInfo key with
    | some raw => if raw ≠ PyVal.none then acc ++ [(key, raw)] else acc
    | Option.none => acc
  else acc

/-- Source lines 225 and 259-267: the `exif_to_set` dictionary accumulated
over the discarded assets of a group, in group order. -/
def exif_to_set (kept : Asset) (to_delete_assets : List Asset) : List (String × PyVal) :=
  to_delete_assets.foldl (fun acc to_del => transferKeys.foldl (exifSetStep kept to_del) acc) []

/-- The value `transfer_metadata_to_kept` would queue for one key from one
discarded asset, were the key not queued yet: mirrors the body of
`exifSetStep` without the already-queued check. -/
def transferVal (kept to_del : Asset) (key : String) : Option PyVal :=
  if _has_exif_value to_del key && !(_has_exif_value kept key) then
    match dictGet to_del.exifInfo key with
    | some raw => if raw ≠ PyVal.none then some raw else Option.none
    | Option.none => Option.none
  else Option.none

/-- One HTTP call issued against the server.  `getAlbums` is the only
read-only call; everything else mutates or deletes server state. -/
inductive ApiCall where
  | getAlbums (assetId : String)
  | albumRemoveAsset (albumId : String) (ids : List String)
  | tagRemoveAsset (tagId : String) (ids : List String)
  | albumAddAsset (albumId : String) (ids : List String)
  | tagsApply (assetIds : List String) (tagIds : List String)
  | assetsUpdate (ids : List String) (fields : List (String × PyVal))
  | assetsDelete (force : Bool) (ids : List String)
  deriving DecidableEq, Repr

/-- Mutating or deleting calls, as opposed to the read-only album query. -/
def isMutating : ApiCall → Bool
  | ApiCall.getAlbums _ => false
  | _ => true

/-- Recognizer for the batched tag-apply call. -/
def isTagsApply : ApiCall → Bool
  | ApiCall.tagsApply _ _ => true
  | _ => false

/-- Recognizer for deletion calls. -/
def isAssetsDelete : ApiCall → Bool
  | ApiCall.assetsDelete _ _ => true
  | _ => false

/-- The server-side environment: which album ids contain a given asset id
(the response to `GET /api/albums?assetId=...`). -/
def Env : Type := String → List String

/-- Source lines 179-217, `remove_kept_metadata`: fetch the kept asset's
albums, remove it from each, then remove each of its truthy tags. -/
def remove_kept_metadata_calls (env : Env) (kept : Asset) : List ApiCall :=
  ApiCall.getAlbums kept.id ::
    ((env kept.id).map (fun alb => ApiCall.albumRemoveAsset alb [kept.id])
      ++ (kept.tags.filterMap tagTruthyId).map (fun tid => ApiCall.tagRemoveAsset tid [kept.id]))

/-- Source lines 220-295, `transfer_metadata_to_kept`: per discarded asset
an album query followed by one album-add per album, then at most one
batched tag-apply call (line 270-282, only when `new_tag_ids` is
non-empty), then at most one batched field-update call (line 284-295,
only when `exif_to_set` is non-empty). -/
def transfer_metadata_calls (env : Env) (kept : Asset) (to_delete_assets : List Asset) :
    List ApiCall :=
  (to_delete_assets.flatMap fun to_del =>
      ApiCall.getAlbums to_del.id :: (env to_del.id).map (fun alb => ApiCall.albumAddAsset alb [kept.id]))
    ++ (let new_tag_ids := tags_to_add kept to_delete_assets
        if new_tag_ids.isEmpty then [] else [ApiCall.tagsApply [kept.id] new_tag_ids])
    ++ (let ets := exif_to_set kept to_delete_assets
        if ets.isEmpty then [] else [ApiCall.assetsUpdate [kept.id] ets])

/-- The configuration flags consumed by the group loop and the execution
sections (source lines 55-62); `delete_batch_size` is the value of
`DELETE_BATCH_SIZE`, which line 62 forces to be at least 1. -/
structure Config where
  dry_run : Bool
  definitely : Bool
  only_pairs : Bool
  keep_metadata : Bool
  transfer_metadata : Bool
  confirm : Bool
  delete_batch_size : Nat

/-- Source lines 326-350, the `if CONFIRM:` branch for one group: read the
operator reply, skip the group when the stripped lowered reply is `'n'`,
otherwise in dry-run mode only print, and otherwise run the optional
strip, the optional transfer, and the single-group delete call. -/
def groupConfirmCalls (cfg : Config) (env : Env) (reply : String) (kept : Asset)
    (to_delete_assets : List Asset) : List ApiCall :=
  if pyLower (pyStrip reply) = "n" then []
  else if cfg.dry_run then []
  else
    (if !cfg.keep_metadata then remove_kept_metadata_calls env kept else [])
      ++ (if cfg.transfer_metadata && !to_delete_assets.isEmpty then
            transfer_metadata_calls env kept to_delete_assets
          else [])
      ++ [ApiCall.assetsDelete cfg.definitely (to_delete_assets.map (·.id))]

/-- Does printing the per-group report (source lines 317-324) raise? The
report computes `round(size/1024/1024, 2)` for the kept asset and for
every discarded asset, a `TypeError` whenever the size is not a number. -/
def printsCrash (printed : List Asset) : Bool :=
  printed.any fun a =>
    match sizeKey a with
    | PyVal.int _ => false
    | _ => true

/-- The state threaded through the main group loop (source lines 304-355):
the running group counter, the calls issued so far, the accumulated
deletion ids and processed groups of the non-confirm path, and the pending
uncaught exception, if any. -/
structure RunState where
  i : Nat
  calls : List ApiCall
  ids_to_delete : List String
  processed : List (Asset × List Asset)
  err : Option String
  deriving Repr

/-- Source lines 308-355: one iteration of `for group in duplicates`.
An already-raised exception skips the rest of the run; a pairs-only skip
touches nothing but the counter; `select_best_asset` errors and report
`TypeError`s abort the script; otherwise the confirm branch issues its
per-group calls while the bulk branch accumulates ids and groups. -/
def groupStep (cfg : Config) (env : Env) (replies : Nat → String) (st : RunState)
    (assets : List Asset) : RunState :=
  if st.err.isSome then st
  else
    let i := st.i + 1
    if cfg.only_pairs && assets.length != 2 then { st with i := i }
    else
      match select_best_asset assets with
      | Except.error e => { st with i := i, err := some e }
      | Except.ok (kept, _reason) =>
        let to_delete_assets := assets.filter fun a => a.id != kept.id
        let to_delete_ids := to_delete_assets.map (·.id)
        if printsCrash (kept :: to_delete_assets) then { st with i := i, err := some "TypeError" }
        else if cfg.confirm then
          { st with i := i, calls := st.calls ++ groupConfirmCalls cfg env (replies i) kept to_delete_assets }
        else
          { st with i := i,
                    ids_to_delete := st.ids_to_delete ++ to_delete_ids,
                    processed := st.processed ++ [(kept, to_delete_assets)] }

/-- Python `range(0, stop, step)` for a positive step: the multiples of
`step` below `stop`; there are `⌈stop/step⌉` of them. -/
def pyRangeStep (stop step : Nat) : List Nat :=
  (List.range ((stop + step - 1) / step)).map (· * step)

/-- Source lines 379-380: the successive deletion batches
`ids_to_delete[batch_idx : batch_idx + DELETE_BATCH_SIZE]` for
`batch_idx in range(0, total, DELETE_BATCH_SIZE)`. -/
def deleteBatchLists (B : Nat) (ids : List String) : List (List String) :=
  (pyRangeStep ids.length B).map fun k => (ids.drop k).take B

/-- The metadata calls of the non-confirm path for one processed group
(source lines 369-372). -/
def bulkMetaCalls (cfg : Config) (env : Env) (kt : Asset × List Asset) : List ApiCall :=
  (if !cfg.keep_metadata then remove_kept_metadata_calls env kt.1 else [])
    ++ (if cfg.transfer_metadata && !kt.2.isEmpty then
          transfer_metadata_calls env kt.1 kt.2
        else [])

/-- Source lines 357-399: what happens after the group loop.  An uncaught
exception means the script already died; otherwise dry-run mode exits
before any further call (lines 358-360), and the non-confirm path runs the
per-group metadata operations followed by the batched deletions (lines
362-394). -/
def runAfterLoop (cfg : Config) (env : Env) (st : RunState) : RunState :=
  if st.err.isSome then st
  else if cfg.dry_run then st
  else if !cfg.confirm then
    { st with calls := st.calls ++ st.processed.flatMap (bulkMetaCalls cfg env)
        ++ List.map (ApiCall.assetsDelete cfg.definitely) (deleteBatchLists cfg.delete_batch_size st.ids_to_delete) }
  else st

/-- Source lines 304-399: the whole post-fetch run as a call trace. -/
def runCalls (cfg : Config) (env : Env) (replies : Nat → String)
    (duplicates : List (List Asset)) : RunState :=
  runAfterLoop cfg env (duplicates.foldl (groupStep cfg env replies)
    { i := 0, calls := [], ids_to_delete := [], processed := [], err := Option.none })

/-- Fixed configuration used by witnesses: bulk mode, no dry run, batch
size 2. -/
def cfgBulk : Config :=
  { dry_run := false, definitely := false, only_pairs := false, keep_metadata := true,
    transfer_metadata := true, confirm := false, delete_batch_size := 2 }

/-- Concrete asset lacking `fileSizeInByte` (and any parsable date). -/
def nS1 : Asset := { id := "n1", originalFileName := "a.jpg", exifInfo := [], tags := [] }

/-- Concrete asset with a size but no parsable date. -/
def nS2 : Asset :=
  { id := "n2", originalFileName := "b.jpg",
    exifInfo := [("fileSizeInByte", PyVal.int 100)], tags := [] }

/-- Fixed configuration used by witnesses: confirm mode, no dry run. -/
def cfgConfirm : Config :=
  { dry_run := false, definitely := false, only_pairs := false, keep_metadata := true,
    transfer_metadata := true, confirm := true, delete_batch_size := 500 }

/-- Fixed configuration used by witnesses: dry run, bulk mode. -/
def cfgDry : Config :=
  { dry_run := true, definitely := true, only_pairs := false, keep_metadata := false,
    transfer_metadata := true, confirm := false, delete_batch_size := 500 }

/-- A server environment with no album memberships. -/
def envEmpty : Env := fun _ => []

/-- Concrete asset with no EXIF data at all (undated, sizeless). -/
def tN1 : Asset := { id := "t1", originalFileName := "t.jpg", exifInfo := [], tags := [] }

/-- A second sizeless asset, identical to `tN1` except for its id. -/
def tN2 : Asset := { id := "t2", originalFileName := "t.jpg", exifInfo := [], tags := [] }

/-- Concrete asset tied with `tS2` on all four criteria, with an integer
size. -/
def tS1 : Asset :=
  { id := "s1", originalFileName := "x.jpg",
    exifInfo := [("dateTimeOriginal", PyVal.str "5"), ("fileSizeInByte", PyVal.int 7)],
    tags := [] }

/-- Concrete asset tied with `tS1` on all four criteria. -/
def tS2 : Asset :=
  { id := "s2", originalFileName := "y.jpg",
    exifInfo := [("dateTimeOriginal", PyVal.str "5"), ("fileSizeInByte", PyVal.int 7)],
    tags := [] }

/-- First-of-two option choice, used to state lookup characterizations of
the accumulated `exif_to_set` dictionary. -/
def oget (x y : Option PyVal) : Option PyVal :=
  match x with
  | some v => some v
  | Option.none => y

/-- Concrete kept asset for the reconciliation witnesses: has a rating and
tag T1, lacks a description. -/
def keptW : Asset :=
  { id := "k", originalFileName := "k.jpg",
    exifInfo := [("rating", PyVal.int 4)],
    tags := [{ id := some "T1" }] }

/-- First discarded asset: supplies a description and a conflicting
rating, carries tags T1 and T2. -/
def tdW1 : Asset :=
  { id := "d1", originalFileName := "d1.jpg",
    exifInfo := [("description", PyVal.str "alpha"), ("rating", PyVal.int 2)],
    tags := [{ id := some "T1" }, { id := some "T2" }] }

/-- Second discarded asset: supplies a conflicting description, carries
tags T2 and T3. -/
def tdW2 : Asset :=
  { id := "d2", originalFileName := "d2.jpg",
    exifInfo := [("description", PyVal.str "beta")],
    tags := [{ id := some "T2" }, { id := some "T3" }] }

/-- C1: the claim is right about the extractor — an asset without
`fileSizeInByte` yields the descriptor `(⊤, 0, None, 0)` without failing —
but the code, contrary to the spec's "absence must not crash comparisons
(treat as lowest possible for max-comparisons)", raises a `TypeError` in
step 3's `max()` when the size comparison is reached with an absent size:
on the two-asset group `[nS1, nS2]` (tied dates, tied format flags, one
size absent) `select_best_asset` does not return normally. -/
theorem c1_absent_size_typeerror :
    get_asset_info nS1 = (⊤, 0, PyVal.none, 0)
      ∧ select_best_asset [nS1, nS2] = Except.error "TypeError" := by
  constructor
  · rfl
  · decide

/-- C2 counterexample: a group of exactly one asset is not rejected — the
Canonical Selector returns normally, keeping the sole asset with reason
"older", instead of failing with any `InvalidGroup` error. -/
theorem c2_singleton_not_rejected :
    select_best_asset [exA] = Except.ok (exA, "older") := by
  decide

/-- C2 amended: for every group containing exactly one asset, the
Selector silently resolves the group to keeping its only asset, returning
it with reason "older"; no `InvalidGroup` failure exists in the code. -/
theorem c2_singleton_keeps_only_asset (a : Asset) :
    select_best_asset [a] = Except.ok (a, "older") := by
  simp [select_best_asset, pyMin, List.filter]

/-- Helper for C7: with the dry-run flag set, the group loop issues no
calls at all — the bulk branch only accumulates, and the confirm branch's
per-group calls are empty because `groupConfirmCalls` checks `DRY_RUN`
before any destructive step. -/
theorem foldl_groupStep_calls_dry (cfg : Config) (env : Env) (replies : Nat → String)
    (h : cfg.dry_run = true) :
    ∀ (gs : List (List Asset)) (st : RunState),
      (gs.foldl (groupStep cfg env replies) st).calls = st.calls := by
  intro gs
  induction gs with
  | nil => intro st; rfl
  | cons g gs ih =>
    intro st
    rw [List.foldl_cons, ih]
    simp only [groupStep, groupConfirmCalls, h]
    repeat' split
    all_goals first | rfl | simp_all

/-- C7: when the dry-run flag is set, the run issues no mutating call and
no deletion call, whatever the other flags, the server state, the
operator replies, and the duplicate groups are. -/
theorem c7_dry_run_no_mutation (cfg : Config) (env : Env) (replies : Nat → String)
    (duplicates : List (List Asset)) (h : cfg.dry_run = true) :
    ((runCalls cfg env replies duplicates).calls).filter isMutating = [] := by
  unfold runCalls runAfterLoop
  have hc := foldl_groupStep_calls_dry cfg env replies h duplicates
    { i := 0, calls := [], ids_to_delete := [], processed := [], err := Option.none }
  simp only [h]
  split <;> simp_all

/-- C7 witness: a concrete dry-run configuration over a concrete group
issues no mutating call. -/
theorem c7_dry_run_no_mutation_witness :
    cfgDry.dry_run = true
      ∧ ((runCalls cfgDry envEmpty (fun _ => "") [[exA, exB]]).calls).filter isMutating = [] :=
  ⟨rfl, c7_dry_run_no_mutation cfgDry envEmpty (fun _ => "") [[exA, exB]] rfl⟩

/-- C10: in confirm mode (and outside dry run), a reply whose stripped,
lowered form is `'n'` skips the group — no calls at all — and every other
reply is approval: the group's deletion call is issued and, when metadata
transfer is enabled and there are discarded assets, the group's transfer
calls are part of the issued sequence. -/
theorem c10_confirm_reply (cfg : Config) (env : Env) (reply : String) (kept : Asset)
    (tds : List Asset) (hdry : cfg.dry_run = false) :
    (pyLower (pyStrip reply) = "n" → groupConfirmCalls cfg env reply kept tds = [])
      ∧ (pyLower (pyStrip reply) ≠ "n" →
          ApiCall.assetsDelete cfg.definitely (tds.map (·.id)) ∈ groupConfirmCalls cfg env reply kept tds
            ∧ (cfg.transfer_metadata = true → tds ≠ [] →
                transfer_metadata_calls env kept tds <:+: groupConfirmCalls cfg env reply kept tds)) := by
  constructor
  · intro hn
    simp [groupConfirmCalls, hn]
  · intro hn
    constructor
    · simp [groupConfirmCalls, hn, hdry]
    · intro ht hne
      have hemp : tds.isEmpty = false := by
        cases tds with
        | nil => exact absurd rfl hne
        | cons x xs => rfl
      simp only [groupConfirmCalls, if_neg hn, hdry, Bool.false_eq_true, if_false, ht,
        hemp, Bool.not_false, Bool.and_true, if_true]
      exact ⟨if !cfg.keep_metadata then remove_kept_metadata_calls env kept else [],
        [ApiCall.assetsDelete cfg.definitely (tds.map (·.id))], by simp⟩

theorem foldl_min_le_init {α : Type} [LinearOrder α] :
    ∀ (xs : List α) (x : α), xs.foldl min x ≤ x := by
  intro xs
  induction xs with
  | nil => intro x; exact le_refl x
  | cons a l ih => intro x; exact le_trans (ih (min x a)) (min_le_left x a)

theorem foldl_min_le_mem {α : Type} [LinearOrder α] :
    ∀ (xs : List α) (x y : α), y ∈ xs → xs.foldl min x ≤ y := by
  intro xs
  induction xs with
  | nil => intro x y hy; cases hy
  | cons a l ih =>
    intro x y hy
    rcases List.mem_cons.mp hy with rfl | h'
    · exact le_trans (foldl_min_le_init l (min x y)) (min_le_right x y)
    · exact ih (min x a) y h'

theorem foldl_min_mem {α : Type} [LinearOrder α] :
    ∀ (xs : List α) (x : α), xs.foldl min x = x ∨ xs.foldl min x ∈ xs := by
  intro xs
  induction xs with
  | nil => intro x; exact Or.inl rfl
  | cons a l ih =>
    intro x
    rcases ih (min x a) with h | h
    · rcases min_choice x a with h' | h'
      · exact Or.inl (h.trans h')
      · exact Or.inr (List.mem_cons.mpr (Or.inl (h.trans h')))
    · exact Or.inr (List.mem_cons_of_mem a h)

theorem foldl_max_init_le {α : Type} [LinearOrder α] :
    ∀ (xs : List α) (x : α), x ≤ xs.foldl max x := by
  intro xs
  induction xs with
  | nil => intro x; exact le_refl x
  | cons a l ih => intro x; exact le_trans (le_max_left x a) (ih (max x a))

theorem foldl_max_mem_le {α : Type} [LinearOrder α] :
    ∀ (xs : List α) (x y : α), y ∈ xs → y ≤ xs.foldl max x := by
  intro xs
  induction xs with
  | nil => intro x y hy; cases hy
  | cons a l ih =>
    intro x y hy
    rcases List.mem_cons.mp hy with rfl | h'
    · exact le_trans (le_max_right x y) (foldl_max_init_le l (max x y))
    · exact ih (max x a) y h'

theorem foldl_max_mem {α : Type} [LinearOrder α] :
    ∀ (xs : List α) (x : α), xs.foldl max x = x ∨ xs.foldl max x ∈ xs := by
  intro xs
  induction xs with
  | nil => intro x; exact Or.inl rfl
  | cons a l ih =>
    intro x
    rcases ih (max x a) with h | h
    · rcases max_choice x a with h' | h'
      · exact Or.inl (h.trans h')
      · exact Or.inr (List.mem_cons.mpr (Or.inl (h.trans h')))
    · exact Or.inr (List.mem_cons_of_mem a h)

theorem foldl_min_fixed {α : Type} [LinearOrder α] :
    ∀ (xs : List α) (x : α), (∀ y ∈ xs, y = x) → xs.foldl min x = x := by
  intro xs
  induction xs with
  | nil => intro x _; rfl
  | cons a l ih =>
    intro x h
    have ha : a = x := h a (List.mem_cons_self a l)
    subst ha
    rw [List.foldl_cons, min_self]
    exact ih a fun y hy => h y (List.mem_cons_of_mem a hy)

theorem foldl_max_fixed {α : Type} [LinearOrder α] :
    ∀ (xs : List α) (x : α), (∀ y ∈ xs, y = x) → xs.foldl max x = x := by
  intro xs
  induction xs with
  | nil => intro x _; rfl
  | cons a l ih =>
    intro x h
    have ha : a = x := h a (List.mem_cons_self a l)
    subst ha
    rw [List.foldl_cons, max_self]
    exact ih a fun y hy => h y (List.mem_cons_of_mem a hy)

theorem filter_eq_singleton_of_unique {α : Type} [DecidableEq α] :
    ∀ (l : List α) (p : α → Bool) (a : α), l.count a = 1 → p a = true →
      (∀ b ∈ l, p b = true → b = a) → l.filter p = [a] := by
  intro l
  induction l with
  | nil => intro p a hc _ _; simp at hc
  | cons b t ih =>
    intro p a hc hpa hq
    by_cases hba : b = a
    · subst hba
      rw [List.filter_cons_of_pos hpa]
      have hc1 : t.count b + 1 = 1 := by
        rw [← List.count_cons_self b t]; exact hc
      have hbnot : b ∉ t := List.count_eq_zero.mp (by omega)
      have ht : t.filter p = [] := by
        rw [List.filter_eq_nil_iff]
        intro c hcmem hpc
        exact hbnot (hq c (List.mem_cons_of_mem b hcmem) hpc ▸ hcmem)
      rw [ht]
    · have hpb : p b = false := by
        cases hpbv : p b with
        | false => rfl
        | true => exact absurd (hq b (List.mem_cons_self b t) hpbv) hba
      rw [List.filter_cons_of_neg (by simp [hpb])]
      have hc' : t.count a = 1 := by
        rw [← hc, List.count_cons_of_ne (fun h => hba h.symm)]
      exact ih p a hc' hpa fun c hcmem hpc => hq c (List.mem_cons_of_mem b hcmem) hpc

/-- C4: a group of at least two assets containing exactly one asset whose
capture date is the strict minimum resolves to exactly that asset with
reason "older"; moreover the undated sentinel (`⊤`, the model of
`datetime.max`) compares strictly greater than every parsed capture date,
so an undated asset can never be the unique minimum over a dated one. -/
theorem c4_unique_oldest :
    (∀ (assets : List Asset) (a : Asset),
        2 ≤ assets.length → assets.count a = 1 → a ∈ assets →
        (∀ b ∈ assets, b ≠ a → dateKey a < dateKey b) →
        select_best_asset assets = Except.ok (a, "older"))
      ∧ ∀ (b : Asset) (n : Nat), dateKey b = (n : WithTop Nat) → dateKey b < ⊤ := by
  constructor
  · intro assets a h2 hcount hmem hlt
    obtain ⟨x, xs, rfl⟩ : ∃ x xs, assets = x :: xs := by
      cases assets with
      | nil => simp at h2
      | cons x xs => exact ⟨x, xs, rfl⟩
    have hle : ∀ c ∈ x :: xs, dateKey a ≤ dateKey c := by
      intro c hc
      by_cases hca : c = a
      · rw [hca]
      · exact le_of_lt (hlt c hc hca)
    have hm_le : (xs.map dateKey).foldl min (dateKey x) ≤ dateKey a := by
      have hmem' : dateKey a ∈ dateKey x :: xs.map dateKey := by
        rw [← List.map_cons]
        exact List.mem_map_of_mem dateKey hmem
      rcases List.mem_cons.mp hmem' with h | h
      · rw [← h]; exact foldl_min_le_init _ _
      · exact foldl_min_le_mem _ _ _ h
    have hm_ge : dateKey a ≤ (xs.map dateKey).foldl min (dateKey x) := by
      rcases foldl_min_mem (xs.map dateKey) (dateKey x) with h | h
      · rw [h]; exact hle x (List.mem_cons_self x xs)
      · obtain ⟨c, hc, hceq⟩ := List.mem_map.mp h
        rw [← hceq]; exact hle c (List.mem_cons_of_mem x hc)
    have hm : (xs.map dateKey).foldl min (dateKey x) = dateKey a :=
      le_antisymm hm_le hm_ge
    have hfilter : (x :: xs).filter (fun b => decide (dateKey b = dateKey a)) = [a] := by
      apply filter_eq_singleton_of_unique _ _ _ hcount (by simp)
      intro b hb hpb
      have hdb : dateKey b = dateKey a := of_decide_eq_true hpb
      by_contra hne
      exact absurd hdb (ne_of_gt (hlt b hb hne))
    unfold select_best_asset
    simp only [List.map_cons, pyMin, hm, hfilter]
  · intro b n h
    rw [h]
    exact WithTop.coe_lt_top n

/-- C4 witness: on the concrete two-asset group `[exA, exB]`, where `exA`
uniquely holds the minimum capture date, the Selector keeps `exA` with
reason "older". -/
theorem c4_unique_oldest_witness :
    [exA, exB].count exA = 1
      ∧ (∀ b ∈ [exA, exB], b ≠ exA → dateKey exA < dateKey b)
      ∧ select_best_asset [exA, exB] = Except.ok (exA, "older") :=
  ⟨by decide, by decide,
   c4_unique_oldest.1 [exA, exB] exA (by decide) (by decide) (by decide) (by decide)⟩

/-- C10 witness: the reply "no" (which is neither empty nor 'n' after
normalisation) counts as approval — the deletion call for the group is
issued — while a plain "n" reply yields no calls. -/
theorem c10_confirm_reply_witness :
    pyLower (pyStrip "no") ≠ "n"
      ∧ ApiCall.assetsDelete false ["b"] ∈ groupConfirmCalls cfgConfirm envEmpty "no" exA [exB]
      ∧ groupConfirmCalls cfgConfirm envEmpty "n" exA [exB] = [] :=
  ⟨by decide,
   ((c10_confirm_reply cfgConfirm envEmpty "no" exA [exB] rfl).2 (by decide)).1,
   (c10_confirm_reply cfgConfirm envEmpty "n" exA [exB] rfl).1 (by decide)⟩

theorem exists_cons_cons {α : Type} (l : List α) (h2 : 2 ≤ l.length) :
    ∃ x y t, l = x :: y :: t := by
  cases l with
  | nil => simp at h2
  | cons x xs =>
    cases xs with
    | nil => simp at h2
    | cons y t => exact ⟨x, y, t, rfl⟩

theorem reason_ite_eq (len0 len1 : Nat) (hle : len1 ≤ len0) (s t : String) :
    (if len0 ≠ len1 then s else t) = (if len1 < len0 then s else t) := by
  by_cases h : len0 = len1
  · simp [h]
  · have hlt : len1 < len0 := lt_of_le_of_ne hle (fun hh => h hh.symm)
    simp [h, hlt]

theorem carried_len_eq (len0 len1 : Nat) :
    (if len0 ≠ len1 then len1 else len0) = len1 := by
  by_cases h : len0 = len1 <;> simp [h]

theorem cascadeStage4_singleton (a : Asset) (r : String) :
    cascadeStage4 [a] r = Except.ok (a, r) := by
  simp [cascadeStage4, pyMaxNat, List.filter]

theorem cascadeStage3_singleton (a : Asset) (r : String) :
    cascadeStage3 [a] r = Except.ok (a, r) := by
  simp [cascadeStage3, pyMaxVal, pyMaxValAux, List.filter, cascadeStage4_singleton]

theorem cascadeStage2_singleton (a : Asset) (r : String) :
    cascadeStage2 [a] r = Except.ok (a, r) := by
  simp [cascadeStage2, pyMaxNat, List.filter, cascadeStage3_singleton]

theorem select_step4_eq (l : List Asset) (len : Nat) (r : String) (hlen : len = l.length)
    (hl : l = [] ∨ 2 ≤ l.length) : select_step4 l len r = cascadeStage4 l r := by
  rcases hl with rfl | h2
  · rfl
  · subst hlen
    obtain ⟨x, y, t, rfl⟩ := exists_cons_cons l h2
    unfold select_step4 cascadeStage4
    simp only [List.map_cons, pyMaxNat]
    generalize List.foldl max (exifKey x) (exifKey y :: List.map exifKey t) = m4
    cases hf : List.filter (fun a => decide (exifKey a = m4)) (x :: y :: t) with
    | nil => rfl
    | cons a4 t4 =>
      cases t4 with
      | nil =>
        have h1 : 1 < (x :: y :: t).length := by simp [List.length_cons]
        simp [h1]
      | cons b4 t4 =>
        have hle : (a4 :: b4 :: t4).length ≤ (x :: y :: t).length := by
          have h := List.length_filter_le (fun a => decide (exifKey a = m4)) (x :: y :: t)
          rw [hf] at h; exact h
        simp only []
        congr 1
        exact congrArg _ (reason_ite_eq _ _ hle _ _)

theorem select_step3_eq (l : List Asset) (len : Nat) (r : String) (hlen : len = l.length)
    (hl : l = [] ∨ 2 ≤ l.length) : select_step3 l len r = cascadeStage3 l r := by
  rcases hl with rfl | h2
  · rfl
  · subst hlen
    obtain ⟨x, y, t, rfl⟩ := exists_cons_cons l h2
    unfold select_step3 cascadeStage3
    simp only [List.map_cons]
    cases hpv : pyMaxVal (sizeKey x :: sizeKey y :: List.map sizeKey t) with
    | error e => rfl
    | ok m3 =>
      dsimp only
      cases hf : List.filter (fun a => decide (sizeKey a = m3)) (x :: y :: t) with
      | nil => rfl
      | cons a3 t3 =>
        cases t3 with
        | nil =>
          have h1 : 1 < (x :: y :: t).length := by simp only [List.length_cons]; omega
          simp [cascadeStage4_singleton, h1]
        | cons b3 t3 =>
          have hle : (a3 :: b3 :: t3).length ≤ (x :: y :: t).length := by
            have h := List.length_filter_le (fun a => decide (sizeKey a = m3)) (x :: y :: t)
            rw [hf] at h; exact h
          have h2' : 2 ≤ (a3 :: b3 :: t3).length := by simp only [List.length_cons]; omega
          dsimp only
          rw [select_step4_eq _ _ _ (carried_len_eq _ _) (Or.inr h2')]
          congr 1
          exact reason_ite_eq _ _ hle _ _

theorem select_step2_eq (l : List Asset) (len : Nat) (r : String) (hlen : len = l.length)
    (hl : l = [] ∨ 2 ≤ l.length) : select_step2 l len r = cascadeStage2 l r := by
  rcases hl with rfl | h2
  · rfl
  · subst hlen
    obtain ⟨x, y, t, rfl⟩ := exists_cons_cons l h2
    unfold select_step2 cascadeStage2
    simp only [List.map_cons, pyMaxNat]
    generalize List.foldl max (heicKey x) (heicKey y :: List.map heicKey t) = m2
    cases hf : List.filter (fun a => decide (heicKey a = m2)) (x :: y :: t) with
    | nil => rfl
    | cons a2 t2 =>
      cases t2 with
      | nil =>
        have h1 : 1 < (x :: y :: t).length := by simp only [List.length_cons]; omega
        simp [cascadeStage3_singleton, h1]
      | cons b2 t2 =>
        have hle : (a2 :: b2 :: t2).length ≤ (x :: y :: t).length := by
          have h := List.length_filter_le (fun a => decide (heicKey a = m2)) (x :: y :: t)
          rw [hf] at h; exact h
        have h2' : 2 ≤ (a2 :: b2 :: t2).length := by simp only [List.length_cons]; omega
        dsimp only
        rw [select_step3_eq _ _ _ (carried_len_eq _ _) (Or.inr h2')]
        congr 1
        exact reason_ite_eq _ _ hle _ _

/-- C3: on every group of at least two assets the source selector agrees
exactly — same kept asset, same reason, same failure — with the spec-side
cascade `selector_spec_cascade`, which applies the four filters strictly
in the order minimum capture date, maximum format priority, maximum size,
maximum metadata-field count, each filter only narrowing (a `filter` of
the previous candidates), and returns the reason of the last filter that
actually reduced the candidate set, not that of the last filter
evaluated. -/
theorem c3_selector_matches_spec_cascade (assets : List Asset) (h2 : 2 ≤ assets.length) :
    select_best_asset assets = selector_spec_cascade assets := by
  obtain ⟨x, y, rest, rfl⟩ := exists_cons_cons assets h2
  unfold select_best_asset selector_spec_cascade
  simp only [List.map_cons, pyMin]
  generalize List.foldl min (dateKey x) (dateKey y :: List.map dateKey rest) = m1
  cases hf : List.filter (fun a => decide (dateKey a = m1)) (x :: y :: rest) with
  | nil => rfl
  | cons a1 t1 =>
    cases t1 with
    | nil =>
      have h1 : 1 < (x :: y :: rest).length := by simp only [List.length_cons]; omega
      simp [cascadeStage2_singleton, h1]
    | cons b1 t1 =>
      have hle : (a1 :: b1 :: t1).length ≤ (x :: y :: rest).length := by
        have h := List.length_filter_le (fun a => decide (dateKey a = m1)) (x :: y :: rest)
        rw [hf] at h; exact h
      have h2' : 2 ≤ (a1 :: b1 :: t1).length := by simp only [List.length_cons]; omega
      dsimp only
      rw [select_step2_eq _ _ _ (carried_len_eq _ _) (Or.inr h2')]
      congr 1
      exact reason_ite_eq _ _ hle _ _

/-- C3 witness: the refinement instantiated on a concrete two-asset
group. -/
theorem c3_selector_matches_spec_cascade_witness :
    2 ≤ ([exA, exB] : List Asset).length
      ∧ select_best_asset [exA, exB] = selector_spec_cascade [exA, exB] :=
  ⟨by decide, c3_selector_matches_spec_cascade [exA, exB] (by decide)⟩

theorem pyMaxValAux_const (v : PyVal) (hv : v ≠ PyVal.none) :
    ∀ (l : List PyVal), (∀ w ∈ l, w = v) → pyMaxValAux v l = Except.ok v := by
  intro l
  induction l with
  | nil => intro _; rfl
  | cons w t ih =>
    intro h
    have hw : w = v := h w (List.mem_cons_self _ _)
    subst hw
    have hgt : pyGTval w w = Except.ok false := by
      cases w with
      | none => exact absurd rfl hv
      | str s =>
        show Except.ok (decide (s < s)) = Except.ok false
        exact congrArg Except.ok (decide_eq_false (lt_irrefl s))
      | int n =>
        show Except.ok (decide (n < n)) = Except.ok false
        exact congrArg Except.ok (decide_eq_false (lt_irrefl n))
    unfold pyMaxValAux
    rw [hgt]
    simp only [if_false, Bool.false_eq_true, ite_false]
    exact ih fun w' hw' => h w' (List.mem_cons_of_mem _ hw')

theorem pyMaxVal_const (v : PyVal) (l : List PyVal) (hv : v ≠ PyVal.none)
    (h : ∀ w ∈ l, w = v) : pyMaxVal (v :: l) = Except.ok v := by
  unfold pyMaxVal
  exact pyMaxValAux_const v hv l h

theorem select_step4_tied (a : Asset) (t : List Asset) (len : Nat) (r : String)
    (hlen : len = (a :: t).length) (h2 : 2 ≤ (a :: t).length)
    (hconst : ∀ b ∈ a :: t, exifKey b = exifKey a) :
    select_step4 (a :: t) len r = Except.ok (a, r) := by
  obtain ⟨t0, t1, rfl⟩ : ∃ t0 t1, t = t0 :: t1 := by
    cases t with
    | nil => simp at h2
    | cons t0 t1 => exact ⟨t0, t1, rfl⟩
  subst hlen
  unfold select_step4
  simp only [List.map_cons]
  have hm : List.foldl max (exifKey a) (exifKey t0 :: List.map exifKey t1) = exifKey a := by
    apply foldl_max_fixed
    intro v hv
    rcases List.mem_cons.mp hv with rfl | hv'
    · exact hconst t0 (by simp)
    · obtain ⟨c, hc, rfl⟩ := List.mem_map.mp hv'
      exact hconst c (by simp [hc])
  simp only [pyMaxNat, hm]
  have hfil : (a :: t0 :: t1).filter (fun b => decide (exifKey b = exifKey a))
      = a :: t0 :: t1 := by
    rw [List.filter_eq_self]
    intro b hb
    simp [hconst b hb]
  simp only [hfil]
  simp

theorem select_step3_tied (a : Asset) (t : List Asset) (len : Nat) (r : String)
    (hlen : len = (a :: t).length) (h2 : 2 ≤ (a :: t).length)
    (hsize : sizeKey a ≠ PyVal.none)
    (hconsts : ∀ b ∈ a :: t, sizeKey b = sizeKey a)
    (hconste : ∀ b ∈ a :: t, exifKey b = exifKey a) :
    select_step3 (a :: t) len r = Except.ok (a, r) := by
  obtain ⟨t0, t1, rfl⟩ : ∃ t0 t1, t = t0 :: t1 := by
    cases t with
    | nil => simp at h2
    | cons t0 t1 => exact ⟨t0, t1, rfl⟩
  subst hlen
  unfold select_step3
  simp only [List.map_cons]
  have hpv : pyMaxVal (sizeKey a :: sizeKey t0 :: List.map sizeKey t1)
      = Except.ok (sizeKey a) := by
    apply pyMaxVal_const _ _ hsize
    intro w hw
    rcases List.mem_cons.mp hw with rfl | hw'
    · exact hconsts t0 (by simp)
    · obtain ⟨c, hc, rfl⟩ := List.mem_map.mp hw'
      exact hconsts c (by simp [hc])
  simp only [hpv]
  have hfil : (a :: t0 :: t1).filter (fun b => decide (sizeKey b = sizeKey a))
      = a :: t0 :: t1 := by
    rw [List.filter_eq_self]
    intro b hb
    simp [hconsts b hb]
  simp only [hfil]
  simp
  exact select_step4_tied a (t0 :: t1) _ r (by simp) h2 hconste

theorem select_step2_tied (a : Asset) (t : List Asset) (len : Nat) (r : String)
    (hlen : len = (a :: t).length) (h2 : 2 ≤ (a :: t).length)
    (hsize : sizeKey a ≠ PyVal.none)
    (hconsth : ∀ b ∈ a :: t, heicKey b = heicKey a)
    (hconsts : ∀ b ∈ a :: t, sizeKey b = sizeKey a)
    (hconste : ∀ b ∈ a :: t, exifKey b = exifKey a) :
    select_step2 (a :: t) len r = Except.ok (a, r) := by
  obtain ⟨t0, t1, rfl⟩ : ∃ t0 t1, t = t0 :: t1 := by
    cases t with
    | nil => simp at h2
    | cons t0 t1 => exact ⟨t0, t1, rfl⟩
  subst hlen
  unfold select_step2
  simp only [List.map_cons]
  have hm : List.foldl max (heicKey a) (heicKey t0 :: List.map heicKey t1) = heicKey a := by
    apply foldl_max_fixed
    intro v hv
    rcases List.mem_cons.mp hv with rfl | hv'
    · exact hconsth t0 (by simp)
    · obtain ⟨c, hc, rfl⟩ := List.mem_map.mp hv'
      exact hconsth c (by simp [hc])
  simp only [pyMaxNat, hm]
  have hfil : (a :: t0 :: t1).filter (fun b => decide (heicKey b = heicKey a))
      = a :: t0 :: t1 := by
    rw [List.filter_eq_self]
    intro b hb
    simp [hconsth b hb]
  simp only [hfil]
  simp
  exact select_step3_tied a (t0 :: t1) _ r (by simp) h2 hsize hconsts hconste

/-- C8 counterexample to the claim as stated: the all-None size value ties
across the group `[tN1, tN2]` (all four extracted criteria are equal), yet
the Selector does not keep the first asset with the all-tied reason — it
raises a `TypeError` in the size `max()`, because Python cannot compare
`None` with `None`. -/
theorem c8_all_tied_counterexample :
    (∀ b ∈ [tN1, tN2], get_asset_info b = get_asset_info tN1)
      ∧ select_best_asset [tN1, tN2] = Except.error "TypeError" :=
  ⟨by decide, by decide⟩

/-- C8 amended: for every group of at least two assets on which all four
criteria tie and whose (common) size value is present rather than `None`,
the Selector keeps the first asset in original group order with the
all-criteria-tied reason; and, select being a pure function, a second run
on the unmodified group returns the identical result. -/
theorem c8_all_tied_keeps_first (a : Asset) (rest : List Asset)
    (h2 : 2 ≤ (a :: rest).length)
    (htie : ∀ b ∈ a :: rest, get_asset_info b = get_asset_info a)
    (hsize : sizeKey a ≠ PyVal.none) :
    select_best_asset (a :: rest)
        = Except.ok (a, "identical files with the criteria (date, heic, size, exif)")
      ∧ select_best_asset (a :: rest) = select_best_asset (a :: rest) := by
  refine ⟨?_, rfl⟩
  obtain ⟨t0, t1, rfl⟩ : ∃ t0 t1, rest = t0 :: t1 := by
    cases rest with
    | nil => simp at h2
    | cons t0 t1 => exact ⟨t0, t1, rfl⟩
  have hdate : ∀ b ∈ a :: t0 :: t1, dateKey b = dateKey a := by
    intro b hb; unfold dateKey; rw [htie b hb]
  have hheic : ∀ b ∈ a :: t0 :: t1, heicKey b = heicKey a := by
    intro b hb; unfold heicKey; rw [htie b hb]
  have hsizes : ∀ b ∈ a :: t0 :: t1, sizeKey b = sizeKey a := by
    intro b hb; unfold sizeKey; rw [htie b hb]
  have hexif : ∀ b ∈ a :: t0 :: t1, exifKey b = exifKey a := by
    intro b hb; unfold exifKey; rw [htie b hb]
  unfold select_best_asset
  simp only [List.map_cons]
  have hm : List.foldl min (dateKey a) (dateKey t0 :: List.map dateKey t1) = dateKey a := by
    apply foldl_min_fixed
    intro v hv
    rcases List.mem_cons.mp hv with rfl | hv'
    · exact hdate t0 (by simp)
    · obtain ⟨c, hc, rfl⟩ := List.mem_map.mp hv'
      exact hdate c (by simp [hc])
  simp only [pyMin, hm]
  have hfil : (a :: t0 :: t1).filter (fun b => decide (dateKey b = dateKey a))
      = a :: t0 :: t1 := by
    rw [List.filter_eq_self]
    intro b hb
    simp [hdate b hb]
  simp only [hfil]
  simp
  exact select_step2_tied a (t0 :: t1) _ _ (by simp) h2 hsize hheic hsizes hexif

/-- C8 witness: a concrete all-tied pair with integer sizes resolves to
its first asset with the all-criteria-tied reason. -/
theorem c8_all_tied_keeps_first_witness :
    (∀ b ∈ [tS1, tS2], get_asset_info b = get_asset_info tS1)
      ∧ sizeKey tS1 ≠ PyVal.none
      ∧ select_best_asset [tS1, tS2]
          = Except.ok (tS1, "identical files with the criteria (date, heic, size, exif)") :=
  ⟨by decide, by decide,
   (c8_all_tied_keeps_first tS1 [tS2] (by decide) (by decide) (by decide)).1⟩

theorem oget_none (x : Option PyVal) : oget x Option.none = x := by
  cases x <;> rfl

theorem oget_idem (x y : Option PyVal) : oget (oget x y) y = oget x y := by
  cases x <;> cases y <;> rfl

theorem oget_assoc (x y z : Option PyVal) : oget (oget x y) z = oget x (oget y z) := by
  cases x <;> cases y <;> rfl

theorem dictGet_append_single (acc : List (String × PyVal)) (k' : String) (v : PyVal)
    (k : String) :
    dictGet (acc ++ [(k', v)]) k
      = oget (dictGet acc k) (if k' = k then some v else Option.none) := by
  induction acc with
  | nil => simp [dictGet, oget]
  | cons p rest ih =>
    obtain ⟨pk, pv⟩ := p
    by_cases h : pk = k
    · simp [dictGet, h, oget]
    · simp [dictGet, h, ih]

theorem exifSetStep_lookup (kept td : Asset) (acc : List (String × PyVal))
    (key' key : String) :
    dictGet (exifSetStep kept td acc key') key
      = if key = key' then oget (dictGet acc key) (transferVal kept td key)
        else dictGet acc key := by
  unfold exifSetStep transferVal
  by_cases hk : key = key'
  · subst hk
    simp only [if_pos rfl]
    cases hd : dictGet acc key with
    | some w => simp [hd, oget]
    | none =>
      simp only [hd, Option.isSome_none, Bool.false_eq_true, if_false]
      split
      next hc =>
        cases hdg : dictGet td.exifInfo key with
        | none => simp [hd, oget]
        | some raw =>
          by_cases hraw : raw = PyVal.none
          · simp [hraw, hd, oget]
          · simp [hraw, dictGet_append_single, hd, oget]
      next hc => simp [hd, oget]
  · simp only [if_neg hk]
    split
    next => rfl
    next =>
      split
      next hc =>
        cases hdg : dictGet td.exifInfo key' with
        | none => rfl
        | some raw =>
          by_cases hraw : raw = PyVal.none
          · simp [hraw]
          · simp only [hraw, ne_eq, not_false_eq_true, if_true, ite_true]
            rw [dictGet_append_single]
            rw [if_neg (fun h => hk h.symm)]
            exact oget_none _
      next hc => rfl

theorem foldl_exifSetStep_lookup (kept td : Asset) :
    ∀ (keys : List String) (acc : List (String × PyVal)) (key : String),
      dictGet (keys.foldl (exifSetStep kept td) acc) key
        = if key ∈ keys then oget (dictGet acc key) (transferVal kept td key)
          else dictGet acc key := by
  intro keys
  induction keys with
  | nil => intro acc key; simp
  | cons k' ks ih =>
    intro acc key
    rw [List.foldl_cons, ih]
    simp only [exifSetStep_lookup]
    by_cases hk : key = k'
    · subst hk
      simp only [if_pos rfl, List.mem_cons, true_or, if_true]
      by_cases hmem : key ∈ ks
      · simp only [if_pos hmem, oget_idem]
      · simp only [if_neg hmem]
    · have hiff : (key ∈ k' :: ks) ↔ key ∈ ks := by simp [List.mem_cons, hk]
      simp only [if_neg hk, hiff]

theorem exif_to_set_lookup (kept : Asset) (key : String) :
    ∀ (tds : List Asset) (acc : List (String × PyVal)),
      dictGet (tds.foldl (fun acc to_del => transferKeys.foldl (exifSetStep kept to_del) acc) acc) key
        = if key ∈ transferKeys then
            oget (dictGet acc key) (tds.findSome? fun td => transferVal kept td key)
          else dictGet acc key := by
  intro tds
  induction tds with
  | nil =>
    intro acc
    by_cases hkey : key ∈ transferKeys <;> simp [hkey, List.findSome?, oget_none]
  | cons td rest ih =>
    intro acc
    rw [List.foldl_cons, ih]
    simp only [foldl_exifSetStep_lookup]
    by_cases hkey : key ∈ transferKeys
    · simp only [if_pos hkey, oget_assoc]
      congr 1
      rw [List.findSome?_cons]
      cases htv : transferVal kept td key <;> simp [oget]
    · simp only [if_neg hkey]

theorem hasValue_dictGet (td : Asset) (key : String)
    (h : _has_exif_value td key = true) :
    ∃ v, dictGet td.exifInfo key = some v ∧ v ≠ PyVal.none := by
  unfold _has_exif_value at h
  cases hd : dictGet td.exifInfo key with
  | none => rw [hd] at h; simp at h
  | some v =>
    cases v with
    | none => rw [hd] at h; simp at h
    | str s => exact ⟨PyVal.str s, rfl, by simp⟩
    | int n => exact ⟨PyVal.int n, rfl, by simp⟩

theorem findSome?_all_none {α β : Type} (f : α → Option β) :
    ∀ l : List α, (∀ a ∈ l, f a = Option.none) → l.findSome? f = Option.none := by
  intro l
  induction l with
  | nil => intro _; rfl
  | cons a t ih =>
    intro h
    rw [List.findSome?_cons, h a (List.mem_cons_self _ _)]
    exact ih fun b hb => h b (List.mem_cons_of_mem _ hb)

theorem findSome?_transferVal (kept : Asset) (key : String)
    (hkept : _has_exif_value kept key = false) :
    ∀ tds : List Asset,
      (tds.findSome? fun td => transferVal kept td key)
        = (tds.find? fun td => _has_exif_value td key).bind
            fun td => dictGet td.exifInfo key := by
  intro tds
  induction tds with
  | nil => rfl
  | cons td rest ih =>
    rw [List.findSome?_cons, List.find?_cons]
    by_cases h : _has_exif_value td key = true
    · obtain ⟨v, hv, hvne⟩ := hasValue_dictGet td key h
      have htv : transferVal kept td key = some v := by
        simp [transferVal, h, hkept, hv, hvne]
      simp [htv, h, hv]
    · have h' : _has_exif_value td key = false := by
        cases hb : _has_exif_value td key
        · rfl
        · exact absurd hb h
      have htv : transferVal kept td key = Option.none := by
        simp [transferVal, h']
      simp [htv, h', ih]

/-- C5: for every group and every transferable field, the update payload
`exif_to_set` never contains a field the kept asset already has present
and non-blank (so the kept value is never overwritten), and when the kept
asset lacks the field, the queued value is exactly the raw EXIF value of
the first discarded asset in group order that has the field — later
discarded assets cannot override it. -/
theorem c5_field_transfer (kept : Asset) (tds : List Asset) (key : String)
    (hkey : key ∈ transferKeys) :
    (_has_exif_value kept key = true →
        dictGet (exif_to_set kept tds) key = Option.none)
      ∧ (_has_exif_value kept key = false →
          dictGet (exif_to_set kept tds) key
            = (tds.find? fun td => _has_exif_value td key).bind
                fun td => dictGet td.exifInfo key) := by
  have hbase := exif_to_set_lookup kept key tds []
  rw [if_pos hkey] at hbase
  constructor
  · intro hkept
    unfold exif_to_set
    rw [hbase]
    have hall : ∀ td ∈ tds, (fun td => transferVal kept td key) td = Option.none := by
      intro td _
      simp [transferVal, hkept]
    rw [findSome?_all_none _ tds hall]
    rfl
  · intro hkept
    unfold exif_to_set
    rw [hbase, findSome?_transferVal kept key hkept tds]
    rfl

/-- C5 witness: on a concrete group, the kept asset's present "rating"
field is not queued at all, while the absent "description" field receives
the first discarded asset's value ("alpha"), not the second's ("beta"). -/
theorem c5_field_transfer_witness :
    _has_exif_value keptW "rating" = true
      ∧ dictGet (exif_to_set keptW [tdW1, tdW2]) "rating" = Option.none
      ∧ _has_exif_value keptW "description" = false
      ∧ dictGet (exif_to_set keptW [tdW1, tdW2]) "description" = some (PyVal.str "alpha") := by
  refine ⟨by decide, ?_, by decide, ?_⟩
  · exact (c5_field_transfer keptW [tdW1, tdW2] "rating" (by decide)).1 (by decide)
  · have h := (c5_field_transfer keptW [tdW1, tdW2] "description" (by decide)).2 (by decide)
    rw [h]
    decide

theorem mem_addTagId (orig acc : List String) (t : Tag) (x : String) :
    x ∈ addTagId orig acc t ↔ x ∈ acc ∨ (tagTruthyId t = some x ∧ x ∉ orig) := by
  unfold addTagId
  cases ht : tagTruthyId t with
  | none => simp
  | some tid =>
    by_cases ho : tid ∈ orig
    · simp only [ho, true_or, if_true]
      constructor
      · exact Or.inl
      · rintro (h | ⟨heq, hno⟩)
        · exact h
        · injection heq with heq
          exact absurd (heq ▸ ho) hno
    · by_cases ha : tid ∈ acc
      · simp only [ho, ha, or_true, if_true]
        constructor
        · exact Or.inl
        · rintro (h | ⟨heq, hno⟩)
          · exact h
          · injection heq with heq
            exact heq ▸ ha
      · have hcond : ¬(tid ∈ orig ∨ tid ∈ acc) := by
          rintro (h | h)
          · exact ho h
          · exact ha h
        simp only [hcond, if_false]
        rw [List.mem_append, List.mem_singleton]
        constructor
        · rintro (h | rfl)
          · exact Or.inl h
          · exact Or.inr ⟨rfl, ho⟩
        · rintro (h | ⟨heq, hno⟩)
          · exact Or.inl h
          · injection heq with heq
            exact Or.inr heq.symm

theorem mem_foldl_addTagId (orig : List String) :
    ∀ (tags : List Tag) (acc : List String) (x : String),
      x ∈ tags.foldl (addTagId orig) acc
        ↔ x ∈ acc ∨ ((∃ t ∈ tags, tagTruthyId t = some x) ∧ x ∉ orig) := by
  intro tags
  induction tags with
  | nil => intro acc x; simp
  | cons t ts ih =>
    intro acc x
    rw [List.foldl_cons, ih, mem_addTagId]
    constructor
    · rintro ((h | ⟨ht, ho⟩) | ⟨⟨t', ht', hx⟩, ho⟩)
      · exact Or.inl h
      · exact Or.inr ⟨⟨t, List.mem_cons_self _ _, ht⟩, ho⟩
      · exact Or.inr ⟨⟨t', List.mem_cons_of_mem _ ht', hx⟩, ho⟩
    · rintro (h | ⟨⟨t', ht', hx⟩, ho⟩)
      · exact Or.inl (Or.inl h)
      · rcases List.mem_cons.mp ht' with rfl | h'
        · exact Or.inl (Or.inr ⟨hx, ho⟩)
        · exact Or.inr ⟨⟨t', h', hx⟩, ho⟩

theorem mem_tags_to_add (kept : Asset) (tds : List Asset) (x : String) :
    x ∈ tags_to_add kept tds
      ↔ (∃ td ∈ tds, ∃ t ∈ td.tags, tagTruthyId t = some x)
          ∧ x ∉ _get_kept_tags_ids kept := by
  have haux : ∀ (l : List Asset) (acc : List String),
      x ∈ l.foldl (fun acc to_del => to_del.tags.foldl (addTagId (_get_kept_tags_ids kept)) acc) acc
        ↔ x ∈ acc
            ∨ ((∃ td ∈ l, ∃ t ∈ td.tags, tagTruthyId t = some x)
                ∧ x ∉ _get_kept_tags_ids kept) := by
    intro l
    induction l with
    | nil => intro acc; simp
    | cons td rest ih =>
      intro acc
      rw [List.foldl_cons, ih, mem_foldl_addTagId]
      constructor
      · rintro ((h | ⟨⟨t', ht', hx⟩, ho⟩) | ⟨⟨td', htd', t', ht', hx⟩, ho⟩)
        · exact Or.inl h
        · exact Or.inr ⟨⟨td, List.mem_cons_self _ _, t', ht', hx⟩, ho⟩
        · exact Or.inr ⟨⟨td', List.mem_cons_of_mem _ htd', t', ht', hx⟩, ho⟩
      · rintro (h | ⟨⟨td', htd', t', ht', hx⟩, ho⟩)
        · exact Or.inl (Or.inl h)
        · rcases List.mem_cons.mp htd' with rfl | h'
          · exact Or.inl (Or.inr ⟨⟨t', ht', hx⟩, ho⟩)
          · exact Or.inr ⟨⟨td', h', t', ht', hx⟩, ho⟩
  unfold tags_to_add
  rw [haux tds []]
  simp

theorem nodup_addTagId (orig acc : List String) (t : Tag) (h : acc.Nodup) :
    (addTagId orig acc t).Nodup := by
  unfold addTagId
  cases tagTruthyId t with
  | none => exact h
  | some tid =>
    show (if tid ∈ orig ∨ tid ∈ acc then acc else acc ++ [tid]).Nodup
    by_cases hmem : tid ∈ orig ∨ tid ∈ acc
    · rw [if_pos hmem]; exact h
    · rw [if_neg hmem]
      have hna : tid ∉ acc := fun hc => hmem (Or.inr hc)
      simp [List.nodup_append, h, hna]

theorem nodup_foldl_addTagId (orig : List String) :
    ∀ (tags : List Tag) (acc : List String), acc.Nodup →
      (tags.foldl (addTagId orig) acc).Nodup := by
  intro tags
  induction tags with
  | nil => intro acc h; exact h
  | cons t ts ih =>
    intro acc h
    rw [List.foldl_cons]
    exact ih _ (nodup_addTagId orig acc t h)

theorem nodup_tags_to_add (kept : Asset) (tds : List Asset) :
    (tags_to_add kept tds).Nodup := by
  unfold tags_to_add
  have haux : ∀ (l : List Asset) (acc : List String), acc.Nodup →
      (l.foldl (fun acc to_del => to_del.tags.foldl (addTagId (_get_kept_tags_ids kept)) acc) acc).Nodup := by
    intro l
    induction l with
    | nil => intro acc h; exact h
    | cons td rest ih =>
      intro acc h
      rw [List.foldl_cons]
      exact ih _ (nodup_foldl_addTagId _ _ _ h)
  exact haux tds [] List.nodup_nil

theorem filter_isTagsApply_transfer (env : Env) (kept : Asset) (tds : List Asset) :
    (transfer_metadata_calls env kept tds).filter isTagsApply
      = (if (tags_to_add kept tds).isEmpty then []
         else [ApiCall.tagsApply [kept.id] (tags_to_add kept tds)]) := by
  unfold transfer_metadata_calls
  rw [List.filter_append, List.filter_append]
  have h1 : (tds.flatMap fun to_del =>
      ApiCall.getAlbums to_del.id
        :: (env to_del.id).map fun alb => ApiCall.albumAddAsset alb [kept.id]).filter isTagsApply
      = [] := by
    rw [List.filter_eq_nil_iff]
    intro c hc
    rw [List.mem_flatMap] at hc
    obtain ⟨td, _, hc⟩ := hc
    rcases List.mem_cons.mp hc with rfl | hc'
    · simp [isTagsApply]
    · obtain ⟨alb, _, rfl⟩ := List.mem_map.mp hc'
      simp [isTagsApply]
  have h2 : ((if (exif_to_set kept tds).isEmpty then ([] : List ApiCall)
      else [ApiCall.assetsUpdate [kept.id] (exif_to_set kept tds)]).filter isTagsApply) = [] := by
    split <;> simp [isTagsApply]
  rw [h1, h2]
  split
  next h =>
    have h' : tags_to_add kept tds = [] := by
      cases hl : tags_to_add kept tds with
      | nil => rfl
      | cons a l => rw [hl] at h; simp [List.isEmpty] at h
    simp [h']
  next h =>
    have h' : ¬tags_to_add kept tds = [] := by
      intro hh
      rw [hh] at h
      exact h rfl
    have hie : (tags_to_add kept tds).isEmpty = false := by
      cases hl : tags_to_add kept tds with
      | nil => exact absurd hl h'
      | cons a l => rfl
    simp [hie, isTagsApply]

/-- C6: the queued tag set for a group equals the union of the discarded
assets' (truthy) tag ids minus the kept asset's pre-existing tag ids from
the pre-operation snapshot; it contains no duplicates; and it is applied
in a single batched tag-apply call (exactly one such call is issued, and
only when the set is non-empty). -/
theorem c6_tag_transfer (env : Env) (kept : Asset) (tds : List Asset) :
    (tags_to_add kept tds).toFinset
        = (tds.flatMap fun td => td.tags.filterMap tagTruthyId).toFinset
            \ (_get_kept_tags_ids kept).toFinset
      ∧ (tags_to_add kept tds).Nodup
      ∧ (transfer_metadata_calls env kept tds).filter isTagsApply
          = (if (tags_to_add kept tds).isEmpty then []
             else [ApiCall.tagsApply [kept.id] (tags_to_add kept tds)]) := by
  refine ⟨?_, nodup_tags_to_add kept tds, filter_isTagsApply_transfer env kept tds⟩
  ext x
  simp only [List.mem_toFinset, Finset.mem_sdiff, mem_tags_to_add, List.mem_flatMap,
    List.mem_filterMap]

theorem deleteBatchLists_length (B : Nat) (ids : List String) :
    (deleteBatchLists B ids).length = (ids.length + B - 1) / B := by
  unfold deleteBatchLists pyRangeStep
  simp

theorem pyRangeStep_succ (stop B : Nat) (hB : 1 ≤ B) (hs : 1 ≤ stop) :
    pyRangeStep stop B = 0 :: (pyRangeStep (stop - B) B).map (· + B) := by
  unfold pyRangeStep
  have key : (stop + B - 1) / B = (stop - B + B - 1) / B + 1 := by
    have h1 : (stop + B - 1) / B = (stop - 1) / B + 1 := by
      rw [show stop + B - 1 = (stop - 1) + B by omega]
      exact Nat.add_div_right _ (by omega)
    have h2 : (stop - B + B - 1) / B = (stop - 1) / B := by
      by_cases hc : B ≤ stop
      · rw [show stop - B + B - 1 = stop - 1 by omega]
      · rw [show stop - B = 0 by omega]
        rw [Nat.div_eq_of_lt (by omega), Nat.div_eq_of_lt (by omega)]
    rw [h1, h2]
  rw [key, List.range_succ_eq_map]
  simp only [List.map_cons, Nat.zero_mul, List.map_map]
  congr 1
  apply List.map_congr_left
  intro j _
  simp [Function.comp, Nat.succ_mul]

theorem deleteBatchLists_flatten_aux (B : Nat) (hB : 1 ≤ B) :
    ∀ (n : Nat) (ids : List String), ids.length ≤ n →
      (deleteBatchLists B ids).flatten = ids := by
  intro n
  induction n with
  | zero =>
    intro ids h
    have hnil : ids = [] := List.length_eq_zero.mp (Nat.le_zero.mp h)
    subst hnil
    have h0 : ((List.length ([] : List String)) + B - 1) / B = 0 := by
      simp only [List.length_nil]
      exact Nat.div_eq_of_lt (by omega)
    simp [deleteBatchLists, pyRangeStep, h0]
  | succ n ih =>
    intro ids h
    cases ids with
    | nil =>
      have h0 : ((List.length ([] : List String)) + B - 1) / B = 0 := by
        simp only [List.length_nil]
        exact Nat.div_eq_of_lt (by omega)
      simp [deleteBatchLists, pyRangeStep, h0]
    | cons a tl =>
      unfold deleteBatchLists
      rw [pyRangeStep_succ _ _ hB (by simp)]
      simp only [List.map_cons, List.map_map, List.drop_zero]
      rw [List.flatten_cons]
      have hlen : ((a :: tl).drop B).length = (a :: tl).length - B := List.length_drop _ _
      have htail : (List.map ((fun k => (((a :: tl).drop k).take B)) ∘ (· + B))
            (pyRangeStep ((a :: tl).length - B) B))
          = deleteBatchLists B ((a :: tl).drop B) := by
        unfold deleteBatchLists
        rw [hlen]
        apply List.map_congr_left
        intro k _
        simp only [Function.comp_apply]
        rw [List.drop_drop, Nat.add_comm]
      rw [htail]
      have hlen' : ((a :: tl).drop B).length ≤ n := by
        rw [hlen]
        simp only [List.length_cons] at h ⊢
        omega
      rw [ih _ hlen']
      exact List.take_append_drop B (a :: tl)

theorem deleteBatchLists_flatten (B : Nat) (hB : 1 ≤ B) (ids : List String) :
    (deleteBatchLists B ids).flatten = ids :=
  deleteBatchLists_flatten_aux B hB ids.length ids (le_refl _)

theorem foldl_groupStep_calls_bulk (cfg : Config) (env : Env) (replies : Nat → String)
    (h : cfg.confirm = false) :
    ∀ (gs : List (List Asset)) (st : RunState),
      (gs.foldl (groupStep cfg env replies) st).calls = st.calls := by
  intro gs
  induction gs with
  | nil => intro st; rfl
  | cons g gs ih =>
    intro st
    rw [List.foldl_cons, ih]
    simp only [groupStep, h]
    repeat' split
    all_goals first | rfl | simp_all

theorem runAfterLoop_err (cfg : Config) (env : Env) (st : RunState) :
    (runAfterLoop cfg env st).err = st.err := by
  unfold runAfterLoop
  repeat' split
  all_goals rfl

theorem runAfterLoop_ids (cfg : Config) (env : Env) (st : RunState) :
    (runAfterLoop cfg env st).ids_to_delete = st.ids_to_delete := by
  unfold runAfterLoop
  repeat' split
  all_goals rfl

theorem remove_kept_metadata_calls_no_delete (env : Env) (kept : Asset) :
    (remove_kept_metadata_calls env kept).filter isAssetsDelete = [] := by
  rw [List.filter_eq_nil_iff]
  intro c hc
  unfold remove_kept_metadata_calls at hc
  rcases List.mem_cons.mp hc with rfl | hc'
  · simp [isAssetsDelete]
  · rcases List.mem_append.mp hc' with hc'' | hc''
    · obtain ⟨alb, _, rfl⟩ := List.mem_map.mp hc''
      simp [isAssetsDelete]
    · obtain ⟨tid, _, rfl⟩ := List.mem_map.mp hc''
      simp [isAssetsDelete]

theorem transfer_metadata_calls_no_delete (env : Env) (kept : Asset) (tds : List Asset) :
    (transfer_metadata_calls env kept tds).filter isAssetsDelete = [] := by
  rw [List.filter_eq_nil_iff]
  intro c hc
  unfold transfer_metadata_calls at hc
  rcases List.mem_append.mp hc with hc' | hc'
  · rcases List.mem_append.mp hc' with hc'' | hc''
    · rw [List.mem_flatMap] at hc''
      obtain ⟨td, _, hc3⟩ := hc''
      rcases List.mem_cons.mp hc3 with rfl | hc4
      · simp [isAssetsDelete]
      · obtain ⟨alb, _, rfl⟩ := List.mem_map.mp hc4
        simp [isAssetsDelete]
    · have hc3 : c ∈ (if (tags_to_add kept tds).isEmpty then ([] : List ApiCall)
          else [ApiCall.tagsApply [kept.id] (tags_to_add kept tds)]) := hc''
      split at hc3
      next => exact absurd hc3 (List.not_mem_nil c)
      next =>
        rcases List.mem_singleton.mp hc3 with rfl
        simp [isAssetsDelete]
  · have hc3 : c ∈ (if (exif_to_set kept tds).isEmpty then ([] : List ApiCall)
        else [ApiCall.assetsUpdate [kept.id] (exif_to_set kept tds)]) := hc'
    split at hc3
    next => exact absurd hc3 (List.not_mem_nil c)
    next =>
      rcases List.mem_singleton.mp hc3 with rfl
      simp [isAssetsDelete]

theorem bulkMetaCalls_no_delete (cfg : Config) (env : Env) (kt : Asset × List Asset) :
    (bulkMetaCalls cfg env kt).filter isAssetsDelete = [] := by
  unfold bulkMetaCalls
  rw [List.filter_append]
  have h1 : ((if !cfg.keep_metadata then remove_kept_metadata_calls env kt.1 else []).filter
      isAssetsDelete) = [] := by
    split
    · exact remove_kept_metadata_calls_no_delete env kt.1
    · rfl
  have h2 : ((if cfg.transfer_metadata && !kt.2.isEmpty then
        transfer_metadata_calls env kt.1 kt.2
      else []).filter isAssetsDelete) = [] := by
    split
    · exact transfer_metadata_calls_no_delete env kt.1 kt.2
    · rfl
  rw [h1, h2]
  rfl

theorem flatMap_bulkMetaCalls_no_delete (cfg : Config) (env : Env) :
    ∀ processed : List (Asset × List Asset),
      (processed.flatMap (bulkMetaCalls cfg env)).filter isAssetsDelete = [] := by
  intro processed
  induction processed with
  | nil => rfl
  | cons kt rest ih =>
    rw [List.flatMap_cons, List.filter_append, bulkMetaCalls_no_delete, ih]
    rfl

theorem filter_map_assetsDelete (d : Bool) :
    ∀ l : List (List String),
      (l.map (ApiCall.assetsDelete d)).filter isAssetsDelete
        = l.map (ApiCall.assetsDelete d) := by
  intro l
  induction l with
  | nil => rfl
  | cons b bs ih => simp [isAssetsDelete, ih]

/-- C9: in bulk (non-confirm, non-dry) mode, on a run that completes
without an uncaught exception, the deletion calls issued are exactly the
slices `ids[k : k+B]` for `k in range(0, N, B)` over the accumulated
deletion id list: their number is `⌈N/B⌉ = (N + B - 1) / B`, and their
concatenation is the accumulated id list itself — no omissions, no
duplicates introduced. -/
theorem c9_deletion_batching (cfg : Config) (env : Env) (replies : Nat → String)
    (duplicates : List (List Asset))
    (hconf : cfg.confirm = false) (hdry : cfg.dry_run = false)
    (hB : 1 ≤ cfg.delete_batch_size)
    (herr : (runCalls cfg env replies duplicates).err = Option.none) :
    (((runCalls cfg env replies duplicates).calls).filter isAssetsDelete
        = (deleteBatchLists cfg.delete_batch_size
            (runCalls cfg env replies duplicates).ids_to_delete).map
              (ApiCall.assetsDelete cfg.definitely))
      ∧ ((deleteBatchLists cfg.delete_batch_size
            (runCalls cfg env replies duplicates).ids_to_delete).length
          = ((runCalls cfg env replies duplicates).ids_to_delete.length
              + cfg.delete_batch_size - 1) / cfg.delete_batch_size)
      ∧ ((deleteBatchLists cfg.delete_batch_size
            (runCalls cfg env replies duplicates).ids_to_delete).flatten
          = (runCalls cfg env replies duplicates).ids_to_delete) := by
  refine ⟨?_, deleteBatchLists_length _ _, deleteBatchLists_flatten _ hB _⟩
  have hcalls := foldl_groupStep_calls_bulk cfg env replies hconf duplicates
    { i := 0, calls := [], ids_to_delete := [], processed := [], err := Option.none }
  have herr2 : (duplicates.foldl (groupStep cfg env replies)
      { i := 0, calls := [], ids_to_delete := [], processed := [], err := Option.none }).err
      = Option.none := by
    rw [← runAfterLoop_err cfg env]
    exact herr
  unfold runCalls runAfterLoop
  rw [herr2, hcalls]
  simp only [Option.isSome_none, Bool.false_eq_true, if_false, hdry, hconf, Bool.not_false,
    if_true, List.nil_append]
  rw [List.filter_append, flatMap_bulkMetaCalls_no_delete]
  rw [filter_map_assetsDelete]
  rfl

/-- C9 witness: one concrete bulk run (one group, one discarded asset,
batch size 2) completes without exception and issues exactly the batched
deletion calls over its accumulated id list. -/
theorem c9_deletion_batching_witness :
    (runCalls cfgBulk envEmpty (fun _ => "") [[exA, exB]]).err = Option.none
      ∧ ((((runCalls cfgBulk envEmpty (fun _ => "") [[exA, exB]]).calls).filter isAssetsDelete
          = (deleteBatchLists cfgBulk.delete_batch_size
              (runCalls cfgBulk envEmpty (fun _ => "") [[exA, exB]]).ids_to_delete).map
                (ApiCall.assetsDelete cfgBulk.definitely))
        ∧ ((deleteBatchLists cfgBulk.delete_batch_size
              (runCalls cfgBulk envEmpty (fun _ => "") [[exA, exB]]).ids_to_delete).length
            = ((runCalls cfgBulk envEmpty (fun _ => "") [[exA, exB]]).ids_to_delete.length
                + cfgBulk.delete_batch_size - 1) / cfgBulk.delete_batch_size)
        ∧ ((deleteBatchLists cfgBulk.delete_batch_size
              (runCalls cfgBulk envEmpty (fun _ => "") [[exA, exB]]).ids_to_delete).flatten
            = (runCalls cfgBulk envEmpty (fun _ => "") [[exA, exB]]).ids_to_delete)) :=
  ⟨by decide,
   c9_deletion_batching cfgBulk envEmpty (fun _ => "") [[exA, exB]] rfl rfl (by decide) (by decide)⟩
